import Mathlib

/-!
Shallow embedding of `src/annotationprocessing.js` (gospel-library-readwise-sync).
Strings are modelled as `List Char`; JS `undefined` as `Option.none`; the
per-annotation `try/catch` as `Option`-valued assembly.
-/

namespace AnnotationProcessing

/-- The ECMAScript whitespace class matched by `\s` (WhiteSpace ∪ LineTerminator),
also the class removed by `String.prototype.trim`. -/
def jsWhitespace (c : Char) : Bool :=
  [0x9, 0xa, 0xb, 0xc, 0xd, 0x20, 0xa0, 0x1680,
   0x2000, 0x2001, 0x2002, 0x2003, 0x2004, 0x2005, 0x2006, 0x2007,
   0x2008, 0x2009, 0x200a, 0x2028, 0x2029, 0x202f, 0x205f, 0x3000,
   0xfeff].contains c.toNat

/-- The character class of `SeparatorRegex = /([🌌\s—–-]+)/g`: the reserved
separator glyph, whitespace, em dash, en dash, hyphen. -/
def isSep (c : Char) : Bool :=
  c = '🌌' || jsWhitespace c || c = '—' || c = '–' || c = '-'

/-- State-machine core of `part.split(SeparatorRegex)`.  `sepState` says whether
the token currently being accumulated (in `cur`, reversed) is a separator run.
JS split on a regex with a capturing group keeps the separators, yields maximal
runs, and produces (possibly empty) word chunks at both ends. -/
def splitAux (sepState : Bool) (cur : List Char) : List Char → List (List Char)
  | [] => if sepState then [cur.reverse, []] else [cur.reverse]
  | c :: rest =>
    if isSep c = sepState then splitAux sepState (c :: cur) rest
    else cur.reverse :: splitAux (!sepState) [c] rest

/-- `s.split(SeparatorRegex)` for the separator regex above: alternating word
and separator tokens whose concatenation is `s`. -/
def splitKeep (s : List Char) : List (List Char) :=
  splitAux false [] s

/-- The test `p.match(SeparatorRegex)?.[0] !== p` in `wordOffsetToIndex`:
`p` advances the word counter iff it is not a nonempty pure separator run
(the empty string has no match, so it *does* count). -/
def isCounted (p : List Char) : Bool :=
  p.isEmpty || !(p.all isSep)

/-- `p.includes('](')`: two adjacent characters `]` then `(` occur in `p`. -/
def hasLinkOpen : List Char → Bool
  | ']' :: '(' :: _ => true
  | _ :: rest => hasLinkOpen rest
  | [] => false

/-- Contribution of one token to the word counter in `wordOffsetToIndex`:
1 when not inside a link and the token is counted, else 0. -/
def tokCount (inLink : Bool) (p : List Char) : Nat :=
  if !inLink && isCounted p then 1 else 0

/-- Update of the `inLink` flag after one token of `wordOffsetToIndex`:
set on `](`, then cleared when a `)` is seen while set. -/
def tokLink (inLink : Bool) (p : List Char) : Bool :=
  let l1 := inLink || hasLinkOpen p
  if l1 && p.contains ')' then false else l1

/-- A JS number as used for word offsets: an integer, `Infinity`, or `NaN`
(the value arising from arithmetic on an absent offset). -/
inductive JNum where
  | fin (n : Int)
  | inf
  | nan
deriving DecidableEq

/-- The comparison `offset < wordOffset` in the loop of `wordOffsetToIndex`:
anything is `< Infinity`, nothing is `< NaN`. -/
def jlt (o : Nat) : JNum → Bool
  | .fin m => decide ((o : Int) < m)
  | .inf => true
  | .nan => false

/-- Loop of `wordOffsetToIndex`, returning the number of tokens consumed.
`o` is the current word counter, `t` the target offset. -/
def woiAux : List (List Char) → Nat → JNum → Bool → Nat
  | [], _, _, _ => 0
  | p :: rest, o, t, inLink =>
    if jlt o t then 1 + woiAux rest (o + tokCount inLink p) t (tokLink inLink p)
    else 0

/-- `wordOffsetToIndex(wordsAndSeparators, wordOffset)` from the source. -/
def wordOffsetToIndex (parts : List (List Char)) (t : JNum) : Nat :=
  woiAux parts 0 t false

/-- Total word-counter advance over a token list starting from link state
`inLink` (the counter value `wordOffsetToIndex` reaches when never stopped). -/
def countAux : List (List Char) → Bool → Nat
  | [], _ => 0
  | p :: rest, inLink => tokCount inLink p + countAux rest (tokLink inLink p)

/-- Total word count of a tokenized block. -/
def countWords (parts : List (List Char)) : Nat :=
  countAux parts false

/-- `Math.max(h.startOffset - 1, 0)` with an absent offset giving `NaN`. -/
def startWO : Option Int → JNum
  | none => .nan
  | some n => .fin (max (n - 1) 0)

/-- `h.endOffset == -1 ? Infinity : h.endOffset` with an absent offset giving
a never-reached target (`undefined` compares false). -/
def endWO : Option Int → JNum
  | none => .nan
  | some n => if n = -1 then .inf else .fin n

/-- Per-block highlight slice of `assembleHighlights`: split, resolve both
offsets, then `parts.slice(startIndex, endIndex).join('')`. -/
def extractPart (part : List Char) (sOff eOff : Option Int) : List Char :=
  let parts := splitKeep part
  let startIndex := wordOffsetToIndex parts (startWO sOff)
  let endIndex := wordOffsetToIndex parts (endWO eOff)
  ((parts.drop startIndex).take (endIndex - startIndex)).flatten

/-- `withoutPlaceholders`: remove every `🦶`, then every `🌌`. -/
def withoutPlaceholders (md : List Char) : List Char :=
  (md.filter (fun c => c ≠ '🦶')).filter (fun c => c ≠ '🌌')

/-- `String.prototype.trim`: strip JS whitespace from both ends. -/
def trimChars (l : List Char) : List Char :=
  ((l.dropWhile jsWhitespace).reverse.dropWhile jsWhitespace).reverse

/-- One block's resolved highlighted text: slice, strip placeholders, trim
(the composition applied blockwise in `assembleHighlights`). -/
def extractOne (part : List Char) (sOff eOff : Option Int) : List Char :=
  trimChars (withoutPlaceholders (extractPart part sOff eOff))

/-- A highlight span of an annotation: content URI and 1-indexed word offsets
(any field may be absent in the raw data). -/
structure HighlightSpan where
  uri : Option (List Char)
  startOffset : Option Int
  endOffset : Option Int
deriving DecidableEq

/-- One markup block of a content fragment. -/
structure ContentBlock where
  markup : List Char
deriving DecidableEq

/-- A content fragment: markup blocks plus citation metadata. -/
structure ContentFragment where
  content : List ContentBlock
  authorName : Option (List Char)
  publication : Option (List Char)
  headline : Option (List Char)
deriving DecidableEq

/-- An annotation record as consumed by `assembleHighlights`.  `note` holds
`a.note?.content`; `tags` holds the tag names. -/
structure Annotation where
  annotationId : Option (List Char)
  uri : Option (List Char)
  highlights : Option (List HighlightSpan)
  note : Option (List Char)
  tags : Option (List (List Char))
  created : Option Int
  lastUpdated : Option Int
deriving DecidableEq

/-- A resolved citation (`knownSources` entry or synthesized fallback). -/
structure SourceInfo where
  url : List Char
  title : Option (List Char)
  author : Option (List Char)
  type : Option (List Char)
deriving DecidableEq

/-- The output highlight record (dates kept as the raw input timestamps). -/
structure HighlightRecord where
  id : List Char
  created : Option Int
  updated : Option Int
  source : Option SourceInfo
  fullMd : List Char
  highlightMd : List Char
  noteMd : Option (List Char)
  tags : List (List Char)
  sourceLink : Option (List Char)
deriving DecidableEq

/-- `getContentUrisForAnnotation`: the spans' URIs, `[]` when there are no
highlights. -/
def getContentUrisForAnnotation (a : Annotation) : List (Option (List Char)) :=
  (a.highlights.getD []).map (fun h => h.uri)

/-- `'https://www.churchofjesuschrist.org/study' + uri`. -/
def uriToUrl (uri : List Char) : List Char :=
  "https://www.churchofjesuschrist.org/study".toList ++ uri

/-- `uriToUrl` applied to a possibly-absent URI: JS string concatenation turns
`undefined` into the text "undefined". -/
def uriToUrlOpt : Option (List Char) → List Char
  | some u => uriToUrl u
  | none => uriToUrl "undefined".toList

/-- The fixed ordered `knownSources` table. -/
def knownSources : List SourceInfo :=
  [ { url := "https://www.churchofjesuschrist.org/study/scriptures/bofm".toList,
      title := some "Book of Mormon".toList,
      author := some "The Church of Jesus Christ of Latter-day Saints".toList,
      type := some "books".toList },
    { url := "https://www.churchofjesuschrist.org/study/scriptures/nt".toList,
      title := some "New Testament".toList,
      author := some "The Church of Jesus Christ of Latter-day Saints".toList,
      type := some "books".toList },
    { url := "https://www.churchofjesuschrist.org/study/scriptures/ot".toList,
      title := some "Old Testament".toList,
      author := some "The Church of Jesus Christ of Latter-day Saints".toList,
      type := some "books".toList },
    { url := "https://www.churchofjesuschrist.org/study/scriptures/dc-testament".toList,
      title := some "Doctrine and Covenants".toList,
      author := some "The Church of Jesus Christ of Latter-day Saints".toList,
      type := some "books".toList },
    { url := "https://www.churchofjesuschrist.org/study/scriptures/pgp".toList,
      title := some "Pearl of Great Price".toList,
      author := some "The Church of Jesus Christ of Latter-day Saints".toList,
      type := some "books".toList } ]

/-- JS `x || y` on possibly-absent strings: absent and empty are falsy. -/
def jsOr (x y : Option (List Char)) : Option (List Char) :=
  match x with
  | some s => if s = [] then y else some s
  | none => y

/-- `getSourceInfo(annotation, contentObj)`: match `uriToUrl(annotation.uri)`
by prefix against `knownSources` (first hit), else synthesize from the
fragment's metadata. -/
def getSourceInfo (a : Annotation) (c : ContentFragment) : SourceInfo :=
  let url := uriToUrlOpt a.uri
  match knownSources.find? (fun s => s.url.isPrefixOf url) with
  | some s => s
  | none =>
    { url := url,
      title := c.headline,
      author := jsOr c.authorName c.publication,
      type := none }

/-- `uris.map(uri => { const c = contents[uri]; if (!c) throw ...; return c })`:
all fragments, or `none` as soon as one URI has no fragment. -/
def resolveContents (contents : List Char → Option ContentFragment) :
    List (Option (List Char)) → Option (List ContentFragment)
  | [] => some []
  | u :: rest =>
    match (match u with | some s => contents s | none => none) with
    | none => none
    | some c => (resolveContents contents rest).map (fun l => c :: l)

/-- The `mdParts.map((part, i) => ...)` loop: block `i` is sliced with span
`i`'s offsets; a missing span (`highlights[i]` undefined) throws, i.e. `none`. -/
def highlightPartsM : List (List Char) → List HighlightSpan → Option (List (List Char))
  | [], _ => some []
  | part :: rest, hs =>
    match hs with
    | [] => none
    | h :: hrest =>
      (highlightPartsM rest hrest).map
        (fun l => extractPart part h.startOffset h.endOffset :: l)

/-- The blank-line joiner `'\n\n'`. -/
def nlnl : List Char := ['\n', '\n']

/-- The body of the per-annotation `try` block of `assembleHighlights`:
`some record` on success, `none` when the code would throw.  `conv` stands for
the external `htmlToMarkdownWithPlaceholders` (turndown with the custom rules)
and `convNote` for `noteToMarkdown`. -/
def assembleOne (conv convNote : List Char → List Char)
    (contents : List Char → Option ContentFragment) (a : Annotation) :
    Option HighlightRecord :=
  match a.annotationId with
  | none => none
  | some id =>
    if id = [] then none
    else
      let hs := a.highlights.getD []
      let uris := getContentUrisForAnnotation a
      match resolveContents contents uris with
      | none => none
      | some contentObjs =>
        let source := contentObjs.head?.map (getSourceInfo a)
        let sourceLink :=
          match uris.head? with
          | some (some u) => if u = [] then none else some (uriToUrl u)
          | _ => none
        let mdParts := (contentObjs.flatMap (fun c => c.content)).map
          (fun b => conv b.markup)
        let fullMd := List.intercalate nlnl (mdParts.map withoutPlaceholders)
        match highlightPartsM mdParts hs with
        | none => none
        | some slices =>
          let highlightMd :=
            List.intercalate nlnl ((slices.map withoutPlaceholders).map trimChars)
          let noteMd :=
            match a.note with
            | some nc => if nc = [] then none else some (convNote nc)
            | none => none
          some { id := id,
                 created := a.created,
                 updated := a.lastUpdated,
                 source := source,
                 fullMd := fullMd,
                 highlightMd := highlightMd,
                 noteMd := noteMd,
                 tags := a.tags.getD [],
                 sourceLink := sourceLink }

/-- `assembleHighlights(annotations, contents)`: assemble each annotation,
drop the failures, then `filter(h => !!h?.highlightMd)` drops records whose
highlighted text is empty. -/
def assembleHighlights (conv convNote : List Char → List Char)
    (annotations : List Annotation)
    (contents : List Char → Option ContentFragment) : List HighlightRecord :=
  (annotations.filterMap (assembleOne conv convNote contents)).filter
    (fun r => !r.highlightMd.isEmpty)


/-! ### Spec-modelled comparison definitions -/

/-- Modelled from the spec: citation resolution as §4.4 step 8 / §3 word it,
using the annotation's FIRST HIGHLIGHT URI as the citation URI (the code's
`getSourceInfo` instead uses the annotation's own `uri` field, which is not
under `src/`-external dispute — this definition only serves to compare the
spec's wording with the code). -/
def getSourceInfoFromFirstHighlightUri (a : Annotation) (c : ContentFragment) :
    SourceInfo :=
  let url := uriToUrlOpt (match (a.highlights.getD []).head? with
    | some h => h.uri
    | none => none)
  match knownSources.find? (fun s => s.url.isPrefixOf url) with
  | some s => s
  | none =>
    { url := url,
      title := c.headline,
      author := jsOr c.authorName c.publication,
      type := none }

/-- First entry of a source table whose `url` is a prefix of `url`. -/
def firstMatchIn (url : List Char) : List SourceInfo → Option SourceInfo
  | [] => none
  | s :: rest => if s.url.isPrefixOf url then some s else firstMatchIn url rest

/-- Modelled from the spec (amended wording): the citation comes from the
annotation's `uri` field converted to an absolute URL, matched by prefix
against the fixed ordered table (first match wins), else synthesized from the
fragment's metadata (author name, else publication; headline; the URL). -/
def citationAmendedSpec (a : Annotation) (c : ContentFragment) : SourceInfo :=
  let url := uriToUrlOpt a.uri
  match firstMatchIn url knownSources with
  | some s => s
  | none =>
    { url := url,
      title := c.headline,
      author := jsOr c.authorName c.publication,
      type := none }

/-! ### Concrete example data -/

/-- A converted block containing a two-visible-word link. -/
def exLinkBlock : List Char := "The quick 🌌[brown fox](url)🌌 jumps".toList

/-- A converted block ending in an unterminated link whose URL contains a
hyphen. -/
def exDanglingLinkBlock : List Char := "🌌[a](x/dc-".toList

/-- An annotation with two spans whose first fragment has two markup blocks. -/
def annTwoSpans : Annotation :=
  { annotationId := some "x".toList, uri := none,
    highlights := some [⟨some "a".toList, some 1, some 1⟩,
                        ⟨some "b".toList, some 2, some 2⟩],
    note := none, tags := none, created := none, lastUpdated := none }

/-- A fragment with two markup blocks. -/
def fragTwoBlocks : ContentFragment :=
  ⟨[⟨"alpha beta".toList⟩, ⟨"gamma delta".toList⟩], none, none, none⟩

/-- A fragment with no markup blocks. -/
def fragNoBlocks : ContentFragment := ⟨[], none, none, none⟩

/-- Content mapping for `annTwoSpans`. -/
def contentsTwoSpans (u : List Char) : Option ContentFragment :=
  if u = "a".toList then some fragTwoBlocks
  else if u = "b".toList then some fragNoBlocks else none

/-- An annotation whose own `uri` is a Book of Mormon URI while its first
highlight URI is not. -/
def annBofmUri : Annotation :=
  { annotationId := some "y".toList, uri := some "/scriptures/bofm/1-ne/1".toList,
    highlights := some [⟨some "/other".toList, some 1, some (-1)⟩],
    note := none, tags := none, created := none, lastUpdated := none }

/-- Fragment metadata for the citation example. -/
def fragMeta : ContentFragment :=
  ⟨[⟨"In the beginning".toList⟩], some "Au".toList, some "Pub".toList,
   some "H".toList⟩

/-- A well-formed annotation with one span covering a whole block. -/
def annValid : Annotation :=
  { annotationId := some "v".toList, uri := none,
    highlights := some [⟨some "a".toList, some 1, some (-1)⟩],
    note := none, tags := none, created := some 1, lastUpdated := some 2 }

/-- An annotation with no `annotationId`. -/
def annNoId : Annotation :=
  { annotationId := none, uri := none,
    highlights := some [⟨some "a".toList, some 1, some (-1)⟩],
    note := none, tags := none, created := none, lastUpdated := none }

/-- An annotation with an identifier but an empty span list. -/
def annEmptyHl : Annotation :=
  { annotationId := some "e".toList, uri := none, highlights := some [],
    note := some "n".toList, tags := none, created := none, lastUpdated := none }

/-- A one-block fragment. -/
def fragHello : ContentFragment := ⟨[⟨"hello world".toList⟩], none, none, none⟩

/-- Content mapping holding only `fragHello` at URI "a". -/
def contentsHello (u : List Char) : Option ContentFragment :=
  if u = "a".toList then some fragHello else none

/-- The record `assembleHighlights` produces for `annValid` over
`contentsHello`. -/
def recValid : HighlightRecord :=
  { id := "v".toList, created := some 1, updated := some 2,
    source := some { url := "https://www.churchofjesuschrist.org/studyundefined".toList,
                     title := none, author := none, type := none },
    fullMd := "hello world".toList,
    highlightMd := "hello world".toList,
    noteMd := none, tags := [],
    sourceLink := some "https://www.churchofjesuschrist.org/studya".toList }

/-- Two one-block fragments for the span-alignment witness. -/
def fragOne : ContentFragment := ⟨[⟨"one two".toList⟩], none, none, none⟩

/-- Second one-block fragment for the span-alignment witness. -/
def fragThree : ContentFragment := ⟨[⟨"three four".toList⟩], none, none, none⟩

end AnnotationProcessing

namespace AnnotationProcessing

/-! ### Helper lemmas -/

theorem splitAux_flatten (l : List Char) : ∀ (st : Bool) (cur : List Char),
    (splitAux st cur l).flatten = cur.reverse ++ l := by
  induction l with
  | nil =>
    intro st cur
    cases st <;> simp [splitAux]
  | cons c rest ih =>
    intro st cur
    by_cases h : isSep c = st
    · simp [splitAux, h, ih]
    · simp [splitAux, h, ih]

theorem flatten_splitKeep (s : List Char) : (splitKeep s).flatten = s := by
  simpa using splitAux_flatten s false []

theorem woiAux_stop (parts : List (List Char)) (o : Nat) (t : JNum) (inLink : Bool)
    (h : jlt o t = false) : woiAux parts o t inLink = 0 := by
  cases parts <;> simp [woiAux, h]

theorem woiAux_inf (parts : List (List Char)) : ∀ (o : Nat) (inLink : Bool),
    woiAux parts o .inf inLink = parts.length := by
  induction parts with
  | nil => intro o inLink; simp [woiAux]
  | cons p rest ih => intro o inLink; simp [woiAux, jlt, ih, Nat.add_comm]

theorem woiAux_exhaust (parts : List (List Char)) : ∀ (o : Nat) (inLink : Bool) (k : Int),
    (o : Int) + countAux parts inLink < k →
    woiAux parts o (.fin k) inLink = parts.length := by
  induction parts with
  | nil => intro o inLink k _; simp [woiAux]
  | cons p rest ih =>
    intro o inLink k h
    have hcnt : countAux (p :: rest) inLink
        = tokCount inLink p + countAux rest (tokLink inLink p) := rfl
    rw [hcnt] at h
    have hjlt : jlt o (.fin k) = true := by
      simp only [jlt, decide_eq_true_eq]
      push_cast at h
      omega
    have hrec : woiAux rest (o + tokCount inLink p) (.fin k) (tokLink inLink p)
        = rest.length := by
      apply ih
      push_cast at h ⊢
      omega
    simp [woiAux, hjlt, hrec, Nat.add_comm]

end AnnotationProcessing

namespace AnnotationProcessing

/-! ### Claim C4 -/

/-- Claim C4: for every input string, splitting it into word and separator
tokens (`part.split(SeparatorRegex)`) and concatenating all resulting tokens
in order reproduces the original string exactly. -/
theorem tokenize_concat_roundtrip (s : List Char) : (splitKeep s).flatten = s := by
  simpa using splitAux_flatten s false []

/-! ### Claim C5 -/

/-- Claim C5: for every converted block and every span whose start offset is 1
or absent and whose end offset is the sentinel -1, the resolved slice, after
placeholder stripping and trimming, equals the full placeholder-stripped,
trimmed text of the block. -/
theorem full_span_equals_full_block_text (md : List Char) (s : Option Int)
    (hs : s = some 1 ∨ s = none) :
    extractOne md s (some (-1)) = trimChars (withoutPlaceholders md) := by
  have hstart : wordOffsetToIndex (splitKeep md) (startWO s) = 0 := by
    rcases hs with h | h <;> subst h
    · exact woiAux_stop _ _ _ _ (by simp [jlt, startWO])
    · exact woiAux_stop _ _ _ _ (by simp [jlt, startWO])
  have hend : wordOffsetToIndex (splitKeep md) (endWO (some (-1)))
      = (splitKeep md).length := by
    simp [endWO, wordOffsetToIndex, woiAux_inf]
  simp [extractOne, extractPart, hstart, hend, List.take_length, flatten_splitKeep]

/-- Witness for C5 at a concrete block and offsets. -/
theorem full_span_equals_full_block_text_witness :
    extractOne "hi 🌌🦶🌌 there ".toList (some 1) (some (-1))
      = trimChars (withoutPlaceholders "hi 🌌🦶🌌 there ".toList) :=
  full_span_equals_full_block_text _ _ (Or.inl rfl)

/-! ### Claim C6 -/

/-- Claim C6: whenever the end offset resolves to a token position at or
before the one the start offset resolves to, the slice — and hence the
extracted highlighted text for that block — is empty. -/
theorem inverted_offsets_yield_empty (md : List Char) (sOff eOff : Option Int)
    (h : wordOffsetToIndex (splitKeep md) (endWO eOff)
        ≤ wordOffsetToIndex (splitKeep md) (startWO sOff)) :
    extractOne md sOff eOff = [] := by
  simp [extractOne, extractPart, Nat.sub_eq_zero_of_le h, withoutPlaceholders,
    trimChars]

/-- Witness for C6: start offset 3 and end offset 1 on a three-word block. -/
theorem inverted_offsets_yield_empty_witness :
    wordOffsetToIndex (splitKeep "a b c".toList) (endWO (some 1))
        ≤ wordOffsetToIndex (splitKeep "a b c".toList) (startWO (some 3)) ∧
    extractOne "a b c".toList (some 3) (some 1) = [] :=
  ⟨by decide, inverted_offsets_yield_empty _ _ _ (by decide)⟩

end AnnotationProcessing

namespace AnnotationProcessing

/-! ### Claim C7 -/

/-- Counterexample to C7 as stated: on the block `🌌[a](x/dc-` the total word
count is 2, and a start offset of 3 (decremented and floored to 2, i.e. equal
to the word count, which the claim's "greater than or equal" admits) resolves
to index 3, not the end of the 5-token sequence, and the extracted text for
an unbounded end offset is "-", not empty. -/
theorem start_at_word_count_ce :
    countWords (splitKeep exDanglingLinkBlock) = 2 ∧
    wordOffsetToIndex (splitKeep exDanglingLinkBlock) (startWO (some 3)) = 3 ∧
    (splitKeep exDanglingLinkBlock).length = 5 ∧
    extractOne exDanglingLinkBlock (some 3) (some (-1)) = "-".toList := by
  refine ⟨by decide, by decide, by decide, by decide⟩

/-- Claim C7 (amended): if the decremented, floored start offset is STRICTLY
greater than the block's total word count, offset resolution returns the index
at the end of the token sequence and the extracted highlighted text for that
block is empty, for every end offset. -/
theorem start_beyond_word_count_yields_end_index (md : List Char) (s : Int)
    (e : Option Int) (h : (countWords (splitKeep md) : Int) < max (s - 1) 0) :
    wordOffsetToIndex (splitKeep md) (startWO (some s)) = (splitKeep md).length ∧
    extractOne md (some s) e = [] := by
  have hidx : wordOffsetToIndex (splitKeep md) (startWO (some s))
      = (splitKeep md).length := by
    apply woiAux_exhaust
    simpa [countWords] using h
  refine ⟨hidx, ?_⟩
  simp [extractOne, extractPart, hidx, List.drop_length, withoutPlaceholders,
    trimChars]

/-- Witness for the amended C7: start offset 10 on a two-word block. -/
theorem start_beyond_word_count_yields_end_index_witness :
    ((countWords (splitKeep "a b".toList) : Int) < max (10 - 1) 0) ∧
    (wordOffsetToIndex (splitKeep "a b".toList) (startWO (some 10))
        = (splitKeep "a b".toList).length ∧
      extractOne "a b".toList (some 10) (some (-1)) = []) :=
  ⟨by decide, start_beyond_word_count_yields_end_index _ _ _ (by decide)⟩

/-! ### Claim C1 -/

/-- Counterexample to C1 as stated: in the block
`The quick 🌌[brown fox](url)🌌 jumps` the counter counts 5 words ("The",
"quick", "[brown", "fox](url)", "jumps"), not 3, so the two-visible-word link
advances the counter twice; resolving offsets start=3,end=3 extracts
"[brown", a strict fraction of the link, and covering the whole link takes
offsets 3 through 4. -/
theorem link_multiword_text_counts_per_chunk_ce :
    countWords (splitKeep exLinkBlock) = 5 ∧
    extractOne exLinkBlock (some 3) (some 3) = "[brown".toList ∧
    extractOne exLinkBlock (some 2) (some 4) = "quick [brown fox](url)".toList := by
  refine ⟨by decide, by decide, by decide⟩

theorem countAux_inLink_to_close (closer : List Char) (post : List (List Char))
    (h5 : closer.contains ')' = true) :
    ∀ mid : List (List Char), (∀ p ∈ mid, p.contains ')' = false) →
    countAux (mid ++ closer :: post) true = countAux post false := by
  intro mid
  induction mid with
  | nil =>
    intro _
    have h5m : ')' ∈ closer := by simpa using h5
    simp [countAux, tokCount, tokLink, h5m]
  | cons p mid' ih =>
    intro hm
    have hp : p.contains ')' = false := hm p (List.mem_cons_self p mid')
    have hpm : ')' ∉ p := by simpa using hp
    have hrest := ih (fun q hq => hm q (List.mem_cons_of_mem p hq))
    simp [countAux, tokCount, tokLink, hpm, hrest]

/-- Claim C1 (amended): the word counter of offset resolution advances exactly
once for the tail of a link from the token containing `](` through the token
containing the closing `)`, however many separator-delimited pieces the URL is
split into; each preceding whitespace/dash-delimited chunk of the link's
visible text, however, advances the counter once on its own, so a link counts
one word per visible-text chunk rather than one word in total. -/
theorem link_url_tail_advances_counter_once (opener closer : List Char)
    (mid post : List (List Char))
    (h1 : hasLinkOpen opener = true) (h2 : opener.contains ')' = false)
    (h3 : isCounted opener = true)
    (h4 : ∀ p ∈ mid, p.contains ')' = false)
    (h5 : closer.contains ')' = true) :
    countAux (opener :: (mid ++ closer :: post)) false
      = 1 + countAux post false := by
  have h2m : ')' ∉ opener := by simpa using h2
  have hopen : tokLink false opener = true := by
    simp [tokLink, h1, h2m]
  have hcnt : tokCount false opener = 1 := by
    simp [tokCount, h3]
  simp [countAux, hcnt, hopen, countAux_inLink_to_close closer post h5 mid h4]

/-- Witness for the amended C1 on a URL split across a hyphen. -/
theorem link_url_tail_advances_counter_once_witness :
    countAux ("fox](u".toList :: (["-".toList] ++ "x)".toList :: ["y".toList]))
        false = 1 + countAux ["y".toList] false :=
  link_url_tail_advances_counter_once _ _ _ _ (by decide) (by decide)
    (by decide) (by decide) (by decide)

end AnnotationProcessing

namespace AnnotationProcessing

/-! ### Claim C3 -/

/-- Counterexample to C3 as stated: for an annotation whose own `uri` field is
a Book of Mormon URI while its first highlight URI is "/other", the code's
citation is the Book of Mormon table entry, while resolving from the first
highlight URI (as the claim says) would synthesize a different citation. -/
theorem citation_ignores_first_highlight_uri_ce :
    getSourceInfo annBofmUri fragMeta
      = { url := "https://www.churchofjesuschrist.org/study/scriptures/bofm".toList,
          title := some "Book of Mormon".toList,
          author := some "The Church of Jesus Christ of Latter-day Saints".toList,
          type := some "books".toList } ∧
    getSourceInfoFromFirstHighlightUri annBofmUri fragMeta
      ≠ getSourceInfo annBofmUri fragMeta := by
  refine ⟨by decide, by decide⟩

theorem find?_eq_firstMatchIn (url : List Char) (l : List SourceInfo) :
    l.find? (fun s => s.url.isPrefixOf url) = firstMatchIn url l := by
  induction l with
  | nil => rfl
  | cons s rest ih =>
    by_cases h : s.url.isPrefixOf url
    · simp [firstMatchIn, List.find?_cons, h]
    · simp [firstMatchIn, List.find?_cons, h, ih]

/-- Claim C3 (amended): the citation is resolved from the first resolved
fragment and the annotation's own `uri` field (not the first highlight URI):
that URI is converted to an absolute URL, matched by prefix against the fixed
ordered `knownSources` table with the first match returned, and on no match a
citation is synthesized with author = fragment's author name or else its
publication name, title = fragment's headline, url = the absolute URL. -/
theorem citation_resolution_follows_annotation_uri (a : Annotation)
    (c : ContentFragment) : getSourceInfo a c = citationAmendedSpec a c := by
  simp [getSourceInfo, citationAmendedSpec, find?_eq_firstMatchIn]

/-! ### Claim C2 -/

/-- Counterexample to C2 as stated: `annTwoSpans`'s second span references the
fragment at URI "b", which has NO markup blocks, yet its offsets (2,2) are
resolved against the second block "gamma delta" of the fragment at URI "a",
producing "delta" — the pairing is by flattened block, not by fragment. -/
theorem span_resolved_against_flattened_block_ce :
    (assembleHighlights id id [annTwoSpans] contentsTwoSpans).map
        (fun r => r.highlightMd)
      = [('a' :: 'l' :: 'p' :: 'h' :: 'a' :: '\n' :: '\n' :: "delta".toList)] ∧
    fragNoBlocks.content = [] := by
  refine ⟨by decide, by decide⟩

/-- Claim C2 (amended): highlight spans are positionally aligned 1:1 with the
converted markup blocks flattened across the fetched fragments in order; this
coincides with per-fragment pairing exactly when every fetched fragment holds
exactly one markup block, in which case span i is resolved against the
converted sole block of fragment i. -/
theorem spans_pair_with_fragments_when_single_block
    (conv : List Char → List Char) :
    ∀ (objs : List ContentFragment) (hs : List HighlightSpan),
    (∀ c ∈ objs, ∃ b, c.content = [b]) → objs.length ≤ hs.length →
    highlightPartsM ((objs.flatMap (fun c => c.content)).map
        (fun b => conv b.markup)) hs
      = some (List.zipWith
          (fun c h => extractPart (conv ((c.content.headD ⟨[]⟩).markup))
            h.startOffset h.endOffset) objs hs) := by
  intro objs
  induction objs with
  | nil => intro hs _ _; simp [highlightPartsM]
  | cons c objs' ih =>
    intro hs hone hlen
    obtain ⟨b, hb⟩ := hone c (List.mem_cons_self c objs')
    cases hs with
    | nil => simp at hlen
    | cons h hs' =>
      have ih' := ih hs' (fun d hd => hone d (List.mem_cons_of_mem c hd))
        (by simpa using hlen)
      simp [hb, highlightPartsM, ih']

/-- Witness for the amended C2 on two one-block fragments and two spans. -/
theorem spans_pair_with_fragments_when_single_block_witness :
    highlightPartsM
        (([fragOne, fragThree].flatMap (fun c => c.content)).map
          (fun b => id b.markup))
        ([⟨none, some 1, some 1⟩, ⟨none, some 2, some 2⟩] : List HighlightSpan)
      = some (List.zipWith
          (fun (c : ContentFragment) (h : HighlightSpan) =>
            extractPart (id ((c.content.headD ⟨[]⟩).markup))
            h.startOffset h.endOffset)
          [fragOne, fragThree]
          ([⟨none, some 1, some 1⟩, ⟨none, some 2, some 2⟩] : List HighlightSpan)) :=
  spans_pair_with_fragments_when_single_block id [fragOne, fragThree] _
    (by intro c hc
        cases hc with
        | head => exact ⟨_, rfl⟩
        | tail _ hc2 =>
          cases hc2 with
          | head => exact ⟨_, rfl⟩
          | tail _ hc3 => cases hc3)
    (by decide)

end AnnotationProcessing

namespace AnnotationProcessing

/-! ### Claim C8 -/

theorem resolveContents_none (contents : List Char → Option ContentFragment)
    (u : List Char) :
    ∀ uris : List (Option (List Char)), some u ∈ uris → contents u = none →
    resolveContents contents uris = none := by
  intro uris
  induction uris with
  | nil => intro hmem _; cases hmem
  | cons v rest ih =>
    intro hmem hc
    rcases List.mem_cons.mp hmem with h | h
    · subst h
      simp [resolveContents, hc]
    · cases v with
      | none => simp [resolveContents]
      | some s =>
        cases hcs : contents s with
        | none => simp [resolveContents, hcs]
        | some c => simp [resolveContents, hcs, ih h hc]

/-- Claim C8: a missing identifier and a span URI with no fragment each make
assembly of that annotation fail, and a failing annotation is simply excluded
from the batch output: removing it from the input leaves the output of
`assembleHighlights` unchanged, so every other annotation is still processed
and, if valid, emitted. -/
theorem assembly_failure_isolated :
    (∀ (conv convNote : List Char → List Char)
        (contents : List Char → Option ContentFragment) (a : Annotation),
      a.annotationId = none → assembleOne conv convNote contents a = none) ∧
    (∀ (conv convNote : List Char → List Char)
        (contents : List Char → Option ContentFragment) (a : Annotation)
        (u : List Char),
      some u ∈ getContentUrisForAnnotation a → contents u = none →
      assembleOne conv convNote contents a = none) ∧
    (∀ (conv convNote : List Char → List Char)
        (contents : List Char → Option ContentFragment)
        (pre post : List Annotation) (a : Annotation),
      assembleOne conv convNote contents a = none →
      assembleHighlights conv convNote (pre ++ a :: post) contents
        = assembleHighlights conv convNote (pre ++ post) contents) := by
  refine ⟨?_, ?_, ?_⟩
  · intro conv convNote contents a h
    simp [assembleOne, h]
  · intro conv convNote contents a u hmem hc
    have hres := resolveContents_none contents u ( getContentUrisForAnnotation a)
      hmem hc
    cases hid : a.annotationId with
    | none => simp [assembleOne, hid]
    | some id =>
      by_cases hne : id = []
      · simp [assembleOne, hid, hne]
      · simp [assembleOne, hid, hne, hres]
  · intro conv convNote contents pre post a h
    simp [assembleHighlights, List.filterMap_append, List.filterMap_cons, h]

/-- Witness for C8: a batch of one valid annotation and one with a missing
identifier yields the same output as the valid annotation alone — exactly one
record. -/
theorem assembly_failure_isolated_witness :
    assembleOne id id contentsHello annNoId = none ∧
    assembleHighlights id id ([annValid] ++ annNoId :: []) contentsHello
      = assembleHighlights id id ([annValid] ++ []) contentsHello ∧
    (assembleHighlights id id ([annValid] ++ []) contentsHello).length = 1 :=
  ⟨assembly_failure_isolated.1 id id contentsHello annNoId rfl,
   assembly_failure_isolated.2.2 id id contentsHello [annValid] [] annNoId
     (assembly_failure_isolated.1 id id contentsHello annNoId rfl),
   by decide⟩

/-! ### Claim C9 -/

/-- Claim C9: every record in the final output of `assembleHighlights` has a
non-empty highlighted text — a record whose highlighted text is empty is
filtered out before final output. -/
theorem emitted_records_have_nonempty_highlight
    (conv convNote : List Char → List Char) (anns : List Annotation)
    (contents : List Char → Option ContentFragment) (r : HighlightRecord)
    (hr : r ∈ assembleHighlights conv convNote anns contents) :
    r.highlightMd ≠ [] := by
  have hmem := (List.mem_filter.mp hr).2
  intro hnil
  rw [hnil] at hmem
  simp at hmem

/-- Witness for C9: the concrete record emitted for `annValid` is in the
output and has non-empty highlighted text. -/
theorem emitted_records_have_nonempty_highlight_witness :
    recValid ∈ assembleHighlights id id [annValid] contentsHello ∧
    recValid.highlightMd ≠ [] :=
  ⟨by decide,
   emitted_records_have_nonempty_highlight id id [annValid] contentsHello
     recValid (by decide)⟩

/-! ### Claim C10 -/

/-- Claim C10: an annotation with a present, non-empty identifier but an
absent or empty highlights list assembles without error into a record whose
highlighted text is the empty string, and the final non-empty filter then
removes it, so the batch emits no record for it. -/
theorem spanless_annotation_produces_no_record
    (conv convNote : List Char → List Char)
    (contents : List Char → Option ContentFragment) (a : Annotation)
    (i : List Char) (hid : a.annotationId = some i) (hne : i ≠ [])
    (hhl : a.highlights = none ∨ a.highlights = some []) :
    (assembleOne conv convNote contents a).map (fun r => r.highlightMd)
        = some [] ∧
    assembleHighlights conv convNote [a] contents = [] := by
  have hs : a.highlights.getD [] = [] := by
    rcases hhl with h | h <;> simp [h]
  have huris : getContentUrisForAnnotation a = [] := by
    simp [ getContentUrisForAnnotation, hs]
  constructor
  · simp [assembleOne, hid, hne, huris, hs, resolveContents, highlightPartsM,
      List.intercalate]
  · simp [assembleHighlights, List.filterMap_cons, assembleOne, hid, hne,
      huris, hs, resolveContents, highlightPartsM, List.intercalate]

/-- Witness for C10: the annotation `annEmptyHl` (identifier "e", empty span
list) assembles to a record with empty highlighted text and yields no output. -/
theorem spanless_annotation_produces_no_record_witness :
    (assembleOne id id contentsHello annEmptyHl).map (fun r => r.highlightMd)
        = some [] ∧
    assembleHighlights id id [annEmptyHl] contentsHello = [] :=
  spanless_annotation_produces_no_record id id contentsHello annEmptyHl
    "e".toList rfl (by decide) (Or.inr rfl)

end AnnotationProcessing
